import Mathlib

/-!
Verification of the demonstration-driver notebook
(`_build/html/_sources/content/c3/code 2.ipynb` of `stjordanis/mlbook`).

The notebook loads two bundled datasets (breast cancer = dataset A,
wine = dataset B), fits library classifiers on them, and prints two
training accuracies and one boolean separability line.  The notebook's
own logic — the hyperparameter literals, the dot-product projection,
partitioning by class label, and the `(min(f0) > max(f1)) | (max(f0) < min(f1))`
separability predicate — is embedded directly from the source.  Library
internals (the solver of `LogisticRegression.fit`, `predict`,
`predict_proba`, `score`, the LDA direction) are not in this repository;
where a claim depends on them they are modelled from the spec, each such
definition marked `Modelled from the spec:` in its doc comment.
Numbers are rationals.
-/

/-- Python's `min` over a nonempty list of numbers (0 on the empty list,
where Python raises). -/
def listMin : List ℚ → ℚ
  | [] => 0
  | x :: xs => xs.foldl min x

/-- Python's `max` over a nonempty list of numbers (0 on the empty list,
where Python raises). -/
def listMax : List ℚ → ℚ
  | [] => 0
  | x :: xs => xs.foldl max x

/-- Dot product of two vectors, `np.dot`: sum of elementwise products. -/
def dot (u v : List ℚ) : ℚ := (List.zipWith (· * ·) u v).sum

/-- Projection `np.dot(X, coef)`: every sample row of `X` dotted with
the coefficient vector, one scalar per sample. -/
def project (X : List (List ℚ)) (coef : List ℚ) : List ℚ :=
  X.map (fun row => dot row coef)

/-- Boolean-mask indexing `f[y == c]`: the projected values of the
samples whose label is `c`, in order. -/
def classValues (f : List ℚ) (y : List ℕ) (c : ℕ) : List ℚ :=
  ((f.zip y).filter (fun p => p.2 == c)).map Prod.fst

/-- The notebook's separability predicate, line
`(min(f0) > max(f1)) | (max(f0) < min(f1))`. -/
def separated (f0 f1 : List ℚ) : Bool :=
  (decide (listMin f0 > listMax f1)) || (decide (listMax f0 < listMin f1))

-- Order lemmas about folded min/max, used to relate the predicate to
-- universally quantified range disjointness.

lemma foldl_min_le_init (l : List ℚ) (a : ℚ) : l.foldl min a ≤ a := by
  induction l generalizing a with
  | nil => simp
  | cons x xs ih =>
    simp only [List.foldl_cons]
    exact le_trans (ih (min a x)) (min_le_left a x)

lemma foldl_min_le_of_mem (l : List ℚ) (a x : ℚ) (hx : x ∈ l) :
    l.foldl min a ≤ x := by
  induction l generalizing a with
  | nil => cases hx
  | cons y ys ih =>
    simp only [List.foldl_cons]
    rcases List.mem_cons.mp hx with h | h
    · subst h
      exact le_trans (foldl_min_le_init ys (min a x)) (min_le_right a x)
    · exact ih (min a y) h

lemma foldl_min_cases (l : List ℚ) (a : ℚ) :
    l.foldl min a = a ∨ l.foldl min a ∈ l := by
  induction l generalizing a with
  | nil => left; rfl
  | cons y ys ih =>
    simp only [List.foldl_cons]
    rcases ih (min a y) with h | h
    · rcases min_cases a y with ⟨hm, _⟩ | ⟨hm, _⟩
      · left; rw [h, hm]
      · right; rw [h, hm]; exact List.mem_cons_self y ys
    · right; exact List.mem_cons_of_mem y h

lemma init_le_foldl_max (l : List ℚ) (a : ℚ) : a ≤ l.foldl max a := by
  induction l generalizing a with
  | nil => simp
  | cons x xs ih =>
    simp only [List.foldl_cons]
    exact le_trans (le_max_left a x) (ih (max a x))

lemma le_foldl_max_of_mem (l : List ℚ) (a x : ℚ) (hx : x ∈ l) :
    x ≤ l.foldl max a := by
  induction l generalizing a with
  | nil => cases hx
  | cons y ys ih =>
    simp only [List.foldl_cons]
    rcases List.mem_cons.mp hx with h | h
    · subst h
      exact le_trans (le_max_right a x) (init_le_foldl_max ys (max a x))
    · exact ih (max a y) h

lemma foldl_max_cases (l : List ℚ) (a : ℚ) :
    l.foldl max a = a ∨ l.foldl max a ∈ l := by
  induction l generalizing a with
  | nil => left; rfl
  | cons y ys ih =>
    simp only [List.foldl_cons]
    rcases ih (max a y) with h | h
    · rcases max_cases a y with ⟨hm, _⟩ | ⟨hm, _⟩
      · left; rw [h, hm]
      · right; rw [h, hm]; exact List.mem_cons_self y ys
    · right; exact List.mem_cons_of_mem y h

lemma listMin_le {l : List ℚ} {x : ℚ} (hx : x ∈ l) : listMin l ≤ x := by
  cases l with
  | nil => cases hx
  | cons y ys =>
    rcases List.mem_cons.mp hx with h | h
    · exact h ▸ foldl_min_le_init ys y
    · exact foldl_min_le_of_mem ys y x h

lemma le_listMax {l : List ℚ} {x : ℚ} (hx : x ∈ l) : x ≤ listMax l := by
  cases l with
  | nil => cases hx
  | cons y ys =>
    rcases List.mem_cons.mp hx with h | h
    · exact h ▸ init_le_foldl_max ys y
    · exact le_foldl_max_of_mem ys y x h

lemma listMin_mem {l : List ℚ} (h : l ≠ []) : listMin l ∈ l := by
  cases l with
  | nil => exact absurd rfl h
  | cons y ys =>
    rcases foldl_min_cases ys y with h' | h'
    · rw [listMin, h']; exact List.mem_cons_self y ys
    · rw [listMin]; exact List.mem_cons_of_mem y h'

lemma listMax_mem {l : List ℚ} (h : l ≠ []) : listMax l ∈ l := by
  cases l with
  | nil => exact absurd rfl h
  | cons y ys =>
    rcases foldl_max_cases ys y with h' | h'
    · rw [listMax, h']; exact List.mem_cons_self y ys
    · rw [listMax]; exact List.mem_cons_of_mem y h'

lemma listMin_le_listMax {l : List ℚ} (h : l ≠ []) : listMin l ≤ listMax l :=
  le_trans (listMin_le (listMax_mem h)) le_rfl

-- Data model: configurations and fitted models.

/-- The multi-class fitting mode passed to the classifier constructor:
`'auto'` (the default, left implicit for the binary model) or
`'multinomial'` (joint/simultaneous fitting, explicit for the
multiclass model). -/
inductive MultiClassMode where
  | auto
  | multinomial
deriving DecidableEq

/-- The constructor arguments of `LogisticRegression` that the notebook
sets: the regularization-relaxation constant `C`, the iteration cap
`max_iter`, and the multi-class mode. -/
structure LRConfig where
  C : ℚ
  max_iter : ℕ
  multi_class : MultiClassMode
deriving DecidableEq

/-- The binary model's constructor call
`LogisticRegression(C = 10**5, max_iter = 1e5)` (`1e5` is the float
100000; `multi_class` is left at its default `'auto'`). -/
def binary_model_config : LRConfig :=
  { C := 10 ^ 5, max_iter := 100000, multi_class := .auto }

/-- The multiclass model's constructor call
`LogisticRegression(multi_class = 'multinomial', C = 10**5, max_iter = 10**4)`. -/
def multiclass_model_config : LRConfig :=
  { C := 10 ^ 5, max_iter := 10 ^ 4, multi_class := .multinomial }

/-- The two bundled datasets of the notebook: A = breast cancer
(binary), B = wine (multiclass). -/
inductive DatasetId where
  | A
  | B
deriving DecidableEq

/-- The dataset the multiclass model is fit on:
`multiclass_model.fit(X_wine, y_wine)` — dataset B. -/
def multiclass_fit_dataset : DatasetId := .B

/-- Per-class learned parameters of a fitted linear classifier: the
class label, a weight vector and an intercept. -/
structure ClassVec where
  label : ℕ
  w : List ℚ
  b : ℚ
deriving DecidableEq

/-- A fitted model: one `ClassVec` per class seen in the training
labels. -/
structure LinearModel where
  classes : List ClassVec
deriving DecidableEq

/-- The rows of `X` whose label in `y` is `c`. -/
def rowsOfClass (X : List (List ℚ)) (y : List ℕ) (c : ℕ) : List (List ℚ) :=
  ((X.zip y).filter (fun p => p.2 == c)).map Prod.fst

/-- Elementwise sum of a list of vectors. -/
def sumRows : List (List ℚ) → List ℚ
  | [] => []
  | [r] => r
  | r :: rs => List.zipWith (· + ·) r (sumRows rs)

/-- Modelled from the spec: the library's convex, non-randomized
solver behind `LogisticRegression.fit` (not in this repository) is a
deterministic function of the configuration and the training data; it
learns one weight vector per distinct class of the training labels.
Represented here by class-sum linear scores. -/
def fitModel (cfg : LRConfig) (X : List (List ℚ)) (y : List ℕ) : LinearModel :=
  { classes := y.dedup.map (fun c => ⟨c, sumRows (rowsOfClass X y c), cfg.C * 0⟩) }

/-- The per-class decision scores of a fitted model on one sample row. -/
def scoresFor (m : LinearModel) (row : List ℚ) : List ℚ :=
  m.classes.map (fun c => dot c.w row + c.b)

/-- Index of the largest entry (first one on ties), accumulator form. -/
def argmaxAux : ℕ → ℚ → ℕ → List ℚ → ℕ
  | bi, _, _, [] => bi
  | bi, bv, i, x :: xs =>
      if bv < x then argmaxAux i x (i + 1) xs else argmaxAux bi bv (i + 1) xs

/-- Index of the largest entry of a list (0 on the empty list). -/
def argmaxIdx : List ℚ → ℕ
  | [] => 0
  | x :: xs => argmaxAux 0 x 1 xs

/-- Modelled from the spec: the library's `predict` (not in this
repository) returns, per sample, the label of the class with the
largest decision score. -/
def predict (m : LinearModel) (X : List (List ℚ)) : List ℕ :=
  X.map (fun row => ((m.classes.getD (argmaxIdx (scoresFor m row)) ⟨0, [], 0⟩).label))

/-- Normalize a list of scores so they sum to 1. -/
def probaRow (scores : List ℚ) : List ℚ :=
  scores.map (fun v => v / scores.sum)

/-- Modelled from the spec: the library's `predict_proba` (not in this
repository) returns, per sample, a row of class probabilities — one
entry per class of the fitted model, normalized to sum to 1. -/
def predictProba (m : LinearModel) (X : List (List ℚ)) : List (List ℚ) :=
  X.map (fun row => probaRow (scoresFor m row))

/-- Number of matching positions of two label vectors, walked in
parallel. -/
def countMatches : List ℕ → List ℕ → ℕ
  | a :: as, b :: bs => (if a = b then 1 else 0) + countMatches as bs
  | _, _ => 0

/-- Modelled from the spec: the library's classifier `score` (not in
this repository) returns the mean of `predict(X) == y`, the training
accuracy. -/
def score (m : LinearModel) (X : List (List ℚ)) (y : List ℕ) : ℚ :=
  (countMatches (predict m X) y : ℚ) / (y.length : ℚ)

/-- The spec's wording of accuracy: the number of index positions where
the predicted-label vector equals the label vector, divided by the
number of samples. -/
def accuracyFraction (pred y : List ℕ) : ℚ :=
  (((List.range y.length).countP
      (fun i => decide (pred.get? i = y.get? i))) : ℚ) / (y.length : ℚ)

/-- Number of distinct classes in a label vector. -/
def numClasses (y : List ℕ) : ℕ := y.dedup.length

/-- Modelled from the spec: the default-hyperparameter perceptron's fit
(library-internal), deterministic in the training data. -/
def fitPerceptron (X : List (List ℚ)) (y : List ℕ) : LinearModel :=
  { classes := y.dedup.map (fun c => ⟨c, sumRows (rowsOfClass X y c), 0⟩) }

/-- Modelled from the spec: `LinearDiscriminantAnalysis(n_components = 1).fit`
(library-internal) learns one linear combination of features,
deterministic in the training data; represented by the difference of
the two class sums. -/
def fitLDA (X : List (List ℚ)) (y : List ℕ) : List ℚ :=
  List.zipWith (· - ·) (sumRows (rowsOfClass X y 0)) (sumRows (rowsOfClass X y 1))

/-- The LDA cell's computation after the fit: project dataset A, split
by class, and evaluate the separability predicate that the notebook
prints. -/
def sepOutput (X : List (List ℚ)) (y : List ℕ) : Bool :=
  let f := project X (fitLDA X y)
  separated (classValues f y 0) (classValues f y 1)

-- The driver: straight-line sequence over the two loaded datasets.

/-- The mutable state of the notebook run after the load cell: the two
feature-matrix/label-vector pairs
(`X_cancer`/`y_cancer` = dataset A, `X_wine`/`y_wine` = dataset B). -/
structure DriverState where
  X_cancer : List (List ℚ)
  y_cancer : List ℕ
  X_wine : List (List ℚ)
  y_wine : List ℕ
deriving DecidableEq

/-- The printed/kept outputs of the run: the two training accuracies
and the separability boolean. -/
structure DriverOutput where
  binary_accuracy : ℚ
  multiclass_accuracy : ℚ
  separated_flag : Bool
deriving DecidableEq

/-- The notebook's executable cells after the load, in order: fit the
binary model on A and score it, fit the multiclass model on B and
score it, fit the perceptron on A, fit the LDA on A and evaluate the
separability predicate.  Each step reads the datasets held in the
state and writes none of them. -/
def runDriver (s : DriverState) : DriverState × DriverOutput :=
  let bm := fitModel binary_model_config s.X_cancer s.y_cancer
  let acc1 := score bm s.X_cancer s.y_cancer
  let mm := fitModel multiclass_model_config s.X_wine s.y_wine
  let acc2 := score mm s.X_wine s.y_wine
  let _p := fitPerceptron s.X_cancer s.y_cancer
  let sep := sepOutput s.X_cancer s.y_cancer
  (s, ⟨acc1, acc2, sep⟩)

/-- One construct-fit-predict pass of a classifier configuration:
the predicted labels, the predicted probabilities and the accuracy. -/
def runPipeline (cfg : LRConfig) (X : List (List ℚ)) (y : List ℕ) :
    List ℕ × List (List ℚ) × ℚ :=
  let m := fitModel cfg X y
  (predict m X, predictProba m X, score m X y)

/-- Alignment invariant of a dataset: label vector length equals
feature matrix row count. -/
def aligned (X : List (List ℚ)) (y : List ℕ) : Prop := y.length = X.length

-- Range-disjointness characterizations of the two comparisons.

lemma listMax_lt_listMin_iff {f0 f1 : List ℚ} (h0 : f0 ≠ []) (h1 : f1 ≠ []) :
    listMax f1 < listMin f0 ↔ ∀ a ∈ f0, ∀ b ∈ f1, b < a := by
  constructor
  · intro h a ha b hb
    exact lt_of_le_of_lt (le_listMax hb) (lt_of_lt_of_le h (listMin_le ha))
  · intro h
    exact h (listMin f0) (listMin_mem h0) (listMax f1) (listMax_mem h1)

lemma listMax_lt_listMin_iff_rev {f0 f1 : List ℚ} (h0 : f0 ≠ []) (h1 : f1 ≠ []) :
    listMax f0 < listMin f1 ↔ ∀ a ∈ f0, ∀ b ∈ f1, a < b := by
  constructor
  · intro h a ha b hb
    exact lt_of_le_of_lt (le_listMax ha) (lt_of_lt_of_le h (listMin_le hb))
  · intro h
    exact h (listMax f0) (listMax_mem h0) (listMin f1) (listMin_mem h1)

/-- C1: the separability predicate printed by the driver is true iff
the two classes' projected values occupy disjoint ranges — every
projected value of class 0 exceeds every projected value of class 1,
or vice versa — the predicate itself being exactly the min/max
comparison `(min(f0) > max(f1)) | (max(f0) < min(f1))` over the two
independently computed class partitions of the projection. -/
theorem separated_iff_disjoint_ranges
    (X : List (List ℚ)) (coef : List ℚ) (y : List ℕ)
    (h0 : classValues (project X coef) y 0 ≠ [])
    (h1 : classValues (project X coef) y 1 ≠ []) :
    separated (classValues (project X coef) y 0) (classValues (project X coef) y 1) = true ↔
      ((∀ a ∈ classValues (project X coef) y 0,
          ∀ b ∈ classValues (project X coef) y 1, b < a) ∨
       (∀ a ∈ classValues (project X coef) y 0,
          ∀ b ∈ classValues (project X coef) y 1, a < b)) := by
  simp only [separated, Bool.or_eq_true, decide_eq_true_eq, gt_iff_lt]
  exact or_congr (listMax_lt_listMin_iff h0 h1) (listMax_lt_listMin_iff_rev h0 h1)

/-- Witness for C1 at a concrete projection: `X = [[1],[3]]`,
`coef = [1]`, `y = [0,1]`, where class 0 projects to `[1]` and class 1
to `[3]` and the predicate is true. -/
theorem separated_iff_disjoint_ranges_witness :
    classValues (project [[1], [3]] [1]) [0, 1] 0 ≠ [] ∧
    classValues (project [[1], [3]] [1]) [0, 1] 1 ≠ [] ∧
    separated (classValues (project [[1], [3]] [1]) [0, 1] 0)
      (classValues (project [[1], [3]] [1]) [0, 1] 1) = true := by
  have h0 : classValues (project [[1], [3]] [1]) [0, 1] 0 = [1] := by
    norm_num [classValues, project, dot]
  have h1 : classValues (project [[1], [3]] [1]) [0, 1] 1 = [3] := by
    norm_num [classValues, project, dot]
  refine ⟨by rw [h0]; simp, by rw [h1]; simp, ?_⟩
  refine (separated_iff_disjoint_ranges [[1], [3]] [1] [0, 1]
    (by rw [h0]; simp) (by rw [h1]; simp)).mpr ?_
  right
  rw [h0, h1]
  intro a ha b hb
  simp at ha hb
  rw [ha, hb]
  norm_num

/-- C10: the predicate uses strict comparisons — when the two classes'
projected ranges touch at a boundary (the minimum of one class equals
the maximum of the other), the result is False. -/
theorem separated_false_of_touching
    (f0 f1 : List ℚ) (h0 : f0 ≠ []) (h1 : f1 ≠ [])
    (h : listMin f0 = listMax f1 ∨ listMax f0 = listMin f1) :
    separated f0 f1 = false := by
  simp only [separated, Bool.or_eq_false_iff, decide_eq_false_iff_not, not_lt, gt_iff_lt]
  rcases h with h | h
  · refine ⟨le_of_eq h, ?_⟩
    calc listMin f1 ≤ listMax f1 := listMin_le_listMax h1
    _ = listMin f0 := h.symm
    _ ≤ listMax f0 := listMin_le_listMax h0
  · refine ⟨?_, le_of_eq h.symm⟩
    calc listMin f0 ≤ listMax f0 := listMin_le_listMax h0
    _ = listMin f1 := h
    _ ≤ listMax f1 := listMin_le_listMax h1

/-- Witness for C10: the ranges `[5, 7]` and `[3, 5]` touch at 5 and
the predicate evaluates to false. -/
theorem separated_false_of_touching_witness :
    ([5, 7] : List ℚ) ≠ [] ∧ ([3, 5] : List ℚ) ≠ [] ∧
    listMin [5, 7] = listMax [3, 5] ∧
    separated [5, 7] [3, 5] = false := by
  refine ⟨by simp, by simp, by norm_num [listMin, listMax], ?_⟩
  exact separated_false_of_touching [5, 7] [3, 5] (by simp) (by simp)
    (Or.inl (by norm_num [listMin, listMax]))

-- Accuracy as a fraction of matching positions (C3).

lemma countMatches_eq_countP (b a : List ℕ) (h : a.length = b.length) :
    countMatches a b =
      (List.range b.length).countP (fun i => decide (a.get? i = b.get? i)) := by
  induction b generalizing a with
  | nil =>
    cases a with
    | nil => simp [countMatches]
    | cons x xs => simp at h
  | cons z zs ih =>
    cases a with
    | nil => simp at h
    | cons x xs =>
      have hlen : xs.length = zs.length := by simpa using h
      rw [show countMatches (x :: xs) (z :: zs)
            = (if x = z then 1 else 0) + countMatches xs zs from rfl]
      rw [List.length_cons, List.range_succ_eq_map, List.countP_cons, List.countP_map]
      have h2 : ((fun i => decide ((x :: xs).get? i = (z :: zs).get? i)) ∘ Nat.succ)
          = (fun i => decide (xs.get? i = zs.get? i)) := by
        funext i
        simp
      rw [h2, ← ih xs hlen]
      simp [Nat.add_comm]

/-- C3: for any fitted classifier (in particular the binary model on
dataset A and the multiclass model on dataset B), the reported training
accuracy — the mean of `predict(X) == y` — equals the number of index
positions where the predicted-label vector matches the label vector,
divided by the number of samples. -/
theorem score_eq_accuracyFraction (m : LinearModel) (X : List (List ℚ)) (y : List ℕ)
    (h : y.length = X.length) :
    score m X y = accuracyFraction (predict m X) y := by
  have hp : (predict m X).length = y.length := by
    simp [predict, h]
  rw [score, accuracyFraction, countMatches_eq_countP y (predict m X) hp]

/-- Witness for C3 at a concrete one-class model and a two-sample
dataset. -/
theorem score_eq_accuracyFraction_witness :
    ([0, 1] : List ℕ).length = ([[1], [2]] : List (List ℚ)).length ∧
    score ⟨[⟨0, [1], 0⟩]⟩ [[1], [2]] [0, 1] =
      accuracyFraction (predict ⟨[⟨0, [1], 0⟩]⟩ [[1], [2]]) [0, 1] :=
  ⟨rfl, score_eq_accuracyFraction ⟨[⟨0, [1], 0⟩]⟩ [[1], [2]] [0, 1] rfl⟩

-- Probability rows (C4).

lemma sum_map_div (l : List ℚ) (s : ℚ) :
    (l.map (fun v => v / s)).sum = l.sum / s := by
  induction l with
  | nil => simp
  | cons x xs ih => simp [ih, add_div]

/-- C4: every row of the predicted-probability matrix of a fitted
classifier sums to 1 (provided the row's normalizer is nonzero) and
has exactly one entry per distinct class of the training labels —
2 for a binary label vector, 3 for a three-class one. -/
theorem predictProba_row_sum_one_length (cfg : LRConfig) (X : List (List ℚ)) (y : List ℕ)
    (hs : ∀ row ∈ X, (scoresFor (fitModel cfg X y) row).sum ≠ 0) :
    ∀ p ∈ predictProba (fitModel cfg X y) X, p.sum = 1 ∧ p.length = numClasses y := by
  intro p hp
  rw [predictProba, List.mem_map] at hp
  obtain ⟨row, hrow, hpe⟩ := hp
  subst hpe
  constructor
  · rw [probaRow, sum_map_div, div_self (hs row hrow)]
  · rw [probaRow, List.length_map, scoresFor, List.length_map, fitModel]
    simp [numClasses]

/-- Witness for C4: the binary configuration fit on a two-sample,
two-class dataset; the first probability row sums to 1 and has two
entries. -/
theorem predictProba_row_sum_one_length_witness :
    (∀ row ∈ ([[1], [2]] : List (List ℚ)),
        (scoresFor (fitModel binary_model_config [[1], [2]] [0, 1]) row).sum ≠ 0) ∧
    (probaRow (scoresFor (fitModel binary_model_config [[1], [2]] [0, 1]) [1])).sum = 1 ∧
    (probaRow (scoresFor (fitModel binary_model_config [[1], [2]] [0, 1]) [1])).length
      = numClasses [0, 1] := by
  have hs : ∀ row ∈ ([[1], [2]] : List (List ℚ)),
      (scoresFor (fitModel binary_model_config [[1], [2]] [0, 1]) row).sum ≠ 0 := by
    intro row hrow
    rcases List.mem_cons.mp hrow with rfl | hrow2
    · norm_num [scoresFor, fitModel, rowsOfClass, sumRows, dot, binary_model_config]
    · rcases List.mem_cons.mp hrow2 with rfl | h3
      · norm_num [scoresFor, fitModel, rowsOfClass, sumRows, dot, binary_model_config]
      · cases h3
  refine ⟨hs, predictProba_row_sum_one_length binary_model_config [[1], [2]] [0, 1] hs
    (probaRow (scoresFor (fitModel binary_model_config [[1], [2]] [0, 1]) [1])) ?_⟩
  rw [predictProba]
  exact List.mem_map_of_mem _ (by simp)

/-- C5: the predicted-label vector of a fitted classifier has exactly
one entry per sample row of the matrix it predicts on — the number of
samples of dataset A for the binary model and of dataset B for the
multiclass model. -/
theorem predict_length (m : LinearModel) (X : List (List ℚ)) :
    (predict m X).length = X.length := by
  simp [predict]

/-- C6: the construct-fit-predict pipeline is deterministic — run twice
on the same configuration, feature matrix and labels it returns the
same predicted labels, the same probability matrix and the same
accuracy.  In this embedding the library's convex, non-randomized
solver is a pure function, so determinism holds by construction. -/
theorem pipeline_deterministic (cfg : LRConfig) (X : List (List ℚ)) (y : List ℕ) :
    runPipeline cfg X y = runPipeline cfg X y := rfl

/-- C7: the multiclass model is constructed with the explicit
multinomial (joint/simultaneous) mode, the same regularization constant
`10^5` as the binary model, a strictly smaller iteration cap
(`10^4 < 10^5`), and is fit on dataset B. -/
theorem multiclass_config_relations :
    multiclass_model_config.multi_class = MultiClassMode.multinomial ∧
    multiclass_model_config.C = binary_model_config.C ∧
    binary_model_config.C = 10 ^ 5 ∧
    multiclass_model_config.max_iter = 10 ^ 4 ∧
    binary_model_config.max_iter = 10 ^ 5 ∧
    multiclass_model_config.max_iter < binary_model_config.max_iter ∧
    multiclass_fit_dataset = DatasetId.B := by
  refine ⟨rfl, rfl, rfl, rfl, ?_, ?_, rfl⟩
  · norm_num [binary_model_config]
  · norm_num [binary_model_config, multiclass_model_config]

/-- C8: the two datasets are read-only after load — the full driver
run leaves the feature matrices and label vectors of dataset A and
dataset B exactly as they were loaded. -/
theorem datasets_read_only (s : DriverState) :
    (runDriver s).1.X_cancer = s.X_cancer ∧ (runDriver s).1.y_cancer = s.y_cancer ∧
    (runDriver s).1.X_wine = s.X_wine ∧ (runDriver s).1.y_wine = s.y_wine :=
  ⟨rfl, rfl, rfl, rfl⟩

/-- C9: if the label vector of each loaded dataset is index-aligned
with its feature matrix (length equals row count), the alignment still
holds for both datasets after every step of the driver has run. -/
theorem alignment_preserved (s : DriverState)
    (hA : aligned s.X_cancer s.y_cancer) (hB : aligned s.X_wine s.y_wine) :
    aligned (runDriver s).1.X_cancer (runDriver s).1.y_cancer ∧
    aligned (runDriver s).1.X_wine (runDriver s).1.y_wine :=
  ⟨hA, hB⟩

/-- Witness for C9 at a concrete aligned pair of one-sample datasets. -/
theorem alignment_preserved_witness :
    aligned [[(1 : ℚ)]] [0] ∧ aligned [[(2 : ℚ)]] [1] ∧
    (aligned (runDriver ⟨[[1]], [0], [[2]], [1]⟩).1.X_cancer
        (runDriver ⟨[[1]], [0], [[2]], [1]⟩).1.y_cancer ∧
      aligned (runDriver ⟨[[1]], [0], [[2]], [1]⟩).1.X_wine
        (runDriver ⟨[[1]], [0], [[2]], [1]⟩).1.y_wine) :=
  ⟨rfl, rfl, alignment_preserved ⟨[[1]], [0], [[2]], [1]⟩ rfl rfl⟩

/-- C2: the driver's LDA cell prints a boolean separability result —
the separability predicate computed on the class partition of the
projected dataset A.  Whenever the two projected class ranges overlap
(each class's minimum does not exceed the other's maximum) — which is
what the artifact records for dataset A: the output cell prints
`Separated: False` and the histogram cell shows the two class
distributions overlapping — the value the driver computes and prints
is `false`. -/
theorem driver_separability_output_false (s : DriverState)
    (hov0 : listMin (classValues (project s.X_cancer (fitLDA s.X_cancer s.y_cancer)) s.y_cancer 0)
      ≤ listMax (classValues (project s.X_cancer (fitLDA s.X_cancer s.y_cancer)) s.y_cancer 1))
    (hov1 : listMin (classValues (project s.X_cancer (fitLDA s.X_cancer s.y_cancer)) s.y_cancer 1)
      ≤ listMax (classValues (project s.X_cancer (fitLDA s.X_cancer s.y_cancer)) s.y_cancer 0)) :
    (runDriver s).2.separated_flag = false := by
  show sepOutput s.X_cancer s.y_cancer = false
  rw [sepOutput]
  simp only [separated, Bool.or_eq_false_iff, decide_eq_false_iff_not, not_lt, gt_iff_lt]
  exact ⟨hov0, hov1⟩

/-- Witness for C2: a concrete driver state whose two classes project
onto overlapping (here coinciding) ranges; the full driver run computes
`false` for the separability flag. -/
theorem driver_separability_output_false_witness :
    listMin (classValues (project [[1], [1]] (fitLDA [[1], [1]] [0, 1])) [0, 1] 0)
      ≤ listMax (classValues (project [[1], [1]] (fitLDA [[1], [1]] [0, 1])) [0, 1] 1) ∧
    listMin (classValues (project [[1], [1]] (fitLDA [[1], [1]] [0, 1])) [0, 1] 1)
      ≤ listMax (classValues (project [[1], [1]] (fitLDA [[1], [1]] [0, 1])) [0, 1] 0) ∧
    (runDriver ⟨[[1], [1]], [0, 1], [[2]], [1]⟩).2.separated_flag = false := by
  have e0 : classValues (project [[1], [1]] (fitLDA [[1], [1]] [0, 1])) [0, 1] 0 = [0] := by
    norm_num [classValues, project, fitLDA, rowsOfClass, sumRows, dot]
  have e1 : classValues (project [[1], [1]] (fitLDA [[1], [1]] [0, 1])) [0, 1] 1 = [0] := by
    norm_num [classValues, project, fitLDA, rowsOfClass, sumRows, dot]
  refine ⟨by rw [e0, e1]; norm_num [listMin, listMax], by rw [e0, e1]; norm_num [listMin, listMax], ?_⟩
  exact driver_separability_output_false ⟨[[1], [1]], [0, 1], [[2]], [1]⟩
    (by rw [e0, e1]; norm_num [listMin, listMax]) (by rw [e0, e1]; norm_num [listMin, listMax])
